import Mathlib

/-!
Verification of the two maintenance scripts of the `ai-podcast` repository
(`fix_quiz_width_final.py` and `reduce_quiz_sizes.py`).  Both scripts read one
text file fully into memory, apply a fixed sequence of literal substring
replacements (Python `str.replace`) to the buffer, and write the buffer back.

The buffer is modelled as a list of characters; Python `str.replace(old, new)`
is modelled by `pyReplace`, which scans the buffer left to right, replacing
each non-overlapping occurrence of `old` (leftmost-first) by `new`.  The
special Python behaviour for an empty `old` (interleaving `new` around every
character) is modelled by `interleave`.  File-system state is modelled as a
map from paths to optional contents, and each script as an explicit
state-passing function on that map.
-/

namespace AiPodcast

/-- A text buffer: the in-memory contents of a file, as a list of characters. -/
abbrev Buf := List Char

/-- `isPre p s` decides whether `p` is a leading segment of `s`
(the test Python's replace scan performs at each position). -/
def isPre : Buf → Buf → Bool
  | [], _ => true
  | _ :: _, [] => false
  | a :: as, b :: bs => a == b && isPre as bs

/-- `occursIn x s` decides whether `x` occurs as a contiguous substring of `s`,
matching Python's `x in s` (the empty string occurs in every string). -/
def occursIn (x : Buf) : Buf → Bool
  | [] => x.isEmpty
  | c :: rest => isPre x (c :: rest) || occursIn x rest

/-- The left-to-right replacement scan of Python `str.replace` for a non-empty
`old`: at each position, if `old` starts there, emit `new` and skip past the
match; otherwise keep the character and move on.  `fuel` bounds the recursion;
any `fuel ≥ s.length` gives the real scan. -/
def replaceGo (old new : Buf) : Nat → Buf → Buf
  | _, [] => []
  | 0, s => s
  | fuel + 1, c :: rest =>
    if isPre old (c :: rest) then
      new ++ replaceGo old new fuel (rest.drop (old.length - 1))
    else
      c :: replaceGo old new fuel rest

/-- Python `s.replace("", n)`: `n` before, between and after every character. -/
def interleave (n : Buf) : Buf → Buf
  | [] => n
  | c :: rest => n ++ c :: interleave n rest

/-- Python `s.replace(old, new)` on character-list buffers. -/
def pyReplace (old new s : Buf) : Buf :=
  if old.isEmpty then interleave new s else replaceGo old new s.length s

/-- All suffixes of a buffer (the buffer itself down to the empty buffer). -/
def allSufs : Buf → List Buf
  | [] => [[]]
  | c :: rest => (c :: rest) :: allSufs rest

theorem isPre_iff (p : Buf) : ∀ s, isPre p s = true ↔ ∃ r, p ++ r = s := by
  induction p with
  | nil => intro s; simp [isPre]
  | cons a as ih =>
    intro s
    cases s with
    | nil => simp [isPre]
    | cons b bs =>
      simp only [isPre, Bool.and_eq_true, beq_iff_eq, ih bs, List.cons_append,
        List.cons.injEq]
      constructor
      · rintro ⟨h1, r, h2⟩; exact ⟨r, h1, h2⟩
      · rintro ⟨r, h1, h2⟩; exact ⟨h1, r, h2⟩

theorem occursIn_iff (x : Buf) : ∀ s, occursIn x s = true ↔ ∃ a b, a ++ x ++ b = s := by
  intro s
  induction s with
  | nil =>
    cases x with
    | nil =>
      refine iff_of_true (by simp [occursIn]) ⟨[], [], rfl⟩
    | cons c xs =>
      refine iff_of_false (by simp [occursIn]) ?_
      rintro ⟨a, b, hab⟩
      simpa using congrArg List.length hab
  | cons c rest ih =>
    simp only [occursIn, Bool.or_eq_true, isPre_iff, ih]
    constructor
    · rintro (⟨r, hr⟩ | ⟨a, b, hab⟩)
      · exact ⟨[], r, by simp only [List.nil_append]; exact hr⟩
      · exact ⟨c :: a, b, by simp [← hab]⟩
    · rintro ⟨a, b, hab⟩
      cases a with
      | nil => exact Or.inl ⟨b, by simpa using hab⟩
      | cons d a' =>
        right
        simp only [List.cons_append, List.cons.injEq] at hab
        exact ⟨a', b, hab.2⟩

/-- An occurrence of `x` inside `u ++ v` lies in `u`, lies in `v`, or spans the
border: a non-empty suffix of `u` followed by a non-empty leading segment of `v`. -/
theorem occurs_split (x u v : Buf) (h : occursIn x (u ++ v) = true) :
    occursIn x u = true ∨ occursIn x v = true ∨
      ∃ x1 x2, x1 ++ x2 = x ∧ x1 ≠ [] ∧ x2 ≠ [] ∧
        (∃ a, a ++ x1 = u) ∧ (∃ b, x2 ++ b = v) := by
  obtain ⟨a, b, hab⟩ := (occursIn_iff x (u ++ v)).1 h
  rw [List.append_assoc] at hab
  rcases List.append_eq_append_iff.mp hab with ⟨w, hw1, hw2⟩ | ⟨w, hw1, hw2⟩
  · -- hw1 : u = a ++ w, hw2 : x ++ b = w ++ v
    rcases List.append_eq_append_iff.mp hw2 with ⟨t, ht1, ht2⟩ | ⟨t, ht1, ht2⟩
    · -- ht1 : w = x ++ t, ht2 : b = t ++ v
      exact Or.inl ((occursIn_iff x u).2 ⟨a, t, by simp [hw1, ht1]⟩)
    · -- ht1 : x = w ++ t, ht2 : v = t ++ b
      cases w with
      | nil =>
        refine Or.inr (Or.inl ((occursIn_iff x v).2 ⟨[], b, ?_⟩))
        simp only [List.nil_append] at ht1 ⊢
        rw [← ht1] at ht2
        exact ht2.symm
      | cons e w' =>
        cases t with
        | nil =>
          refine Or.inl ((occursIn_iff x u).2 ⟨a, [], ?_⟩)
          simp only [List.append_nil] at ht1 ⊢
          rw [hw1, ht1]
        | cons d t' =>
          refine Or.inr (Or.inr ⟨e :: w', d :: t', ht1.symm, by simp, by simp,
            ⟨a, hw1.symm⟩, ⟨b, ht2.symm⟩⟩)
  · -- hw1 : a = u ++ w, hw2 : v = w ++ (x ++ b)
    refine Or.inr (Or.inl ((occursIn_iff x v).2 ⟨w, b, ?_⟩))
    rw [hw2, List.append_assoc]

theorem mem_allSufs_iff (t : Buf) : ∀ s, t ∈ allSufs s ↔ ∃ a, a ++ t = s := by
  intro s
  induction s with
  | nil =>
    simp only [allSufs, List.mem_singleton]
    constructor
    · rintro rfl; exact ⟨[], rfl⟩
    · rintro ⟨a, ha⟩; exact (List.append_eq_nil.mp ha).2
  | cons c rest ih =>
    simp only [allSufs, List.mem_cons, ih]
    constructor
    · rintro (rfl | ⟨a, ha⟩)
      · exact ⟨[], rfl⟩
      · exact ⟨c :: a, by simp [ha]⟩
    · rintro ⟨a, ha⟩
      cases a with
      | nil => exact Or.inl (by simpa using ha)
      | cons d a' =>
        simp only [List.cons_append, List.cons.injEq] at ha
        exact Or.inr ⟨a', ha.2⟩

theorem length_le_of_mem_allSufs (t s : Buf) (h : t ∈ allSufs s) : t.length ≤ s.length := by
  obtain ⟨a, ha⟩ := (mem_allSufs_iff t s).1 h
  have := congrArg List.length ha
  simp only [List.length_append] at this
  omega

theorem tail_mem_allSufs (d : Char) (t' s : Buf) (h : (d :: t') ∈ allSufs s) :
    t' ∈ allSufs s := by
  obtain ⟨a, ha⟩ := (mem_allSufs_iff (d :: t') s).1 h
  exact (mem_allSufs_iff t' s).2 ⟨a ++ [d], by simpa using ha⟩

/-- If `t` fits inside the first block of `u ++ v`, being a leading segment of
the whole is being a leading segment of `u`. -/
theorem isPre_append_of_le (t u v : Buf) (h : isPre t (u ++ v) = true)
    (hle : t.length ≤ u.length) : isPre t u = true := by
  obtain ⟨r, hr⟩ := (isPre_iff t (u ++ v)).1 h
  rcases List.append_eq_append_iff.mp hr with ⟨w, hw1, hw2⟩ | ⟨w, hw1, hw2⟩
  · exact (isPre_iff t u).2 ⟨w, hw1.symm⟩
  · -- hw1 : t = u ++ w
    have hlw := congrArg List.length hw1
    simp only [List.length_append] at hlw
    have : w = [] := List.eq_nil_of_length_eq_zero (by omega)
    subst this
    exact (isPre_iff t u).2 ⟨[], by simp [hw1]⟩

/-- A buffer with no occurrence of `old` is returned unchanged by the scan. -/
theorem replaceGo_of_not_occurs (old new : Buf) :
    ∀ (fuel : Nat) (s : Buf), occursIn old s = false → replaceGo old new fuel s = s := by
  intro fuel
  induction fuel with
  | zero => intro s _; cases s <;> simp [replaceGo]
  | succ n ih =>
    intro s h
    cases s with
    | nil => simp [replaceGo]
    | cons c rest =>
      simp only [occursIn, Bool.or_eq_false_iff] at h
      simp [replaceGo, h.1, ih rest h.2]

/-- Python's replace is the identity on buffers that do not contain `old`
(the absent-substring case is silently a no-op). -/
theorem pyReplace_of_not_occurs (old new s : Buf) (h : occursIn old s = false) :
    pyReplace old new s = s := by
  have hne : old.isEmpty = false := by
    cases old with
    | nil => cases s <;> simp [occursIn, isPre] at h
    | cons c os => simp
  simp [pyReplace, hne, replaceGo_of_not_occurs old new s.length s h]

theorem interleave_nil : ∀ s : Buf, interleave [] s = s := by
  intro s
  induction s with
  | nil => rfl
  | cons c rest ih => simp [interleave, ih]

theorem replaceGo_self (x : Buf) (hx : x ≠ []) :
    ∀ (fuel : Nat) (s : Buf), replaceGo x x fuel s = s := by
  intro fuel
  induction fuel with
  | zero => intro s; cases s <;> simp [replaceGo]
  | succ n ih =>
    intro s
    cases s with
    | nil => simp [replaceGo]
    | cons c rest =>
      by_cases h : isPre x (c :: rest) = true
      · obtain ⟨r, hr⟩ := (isPre_iff x (c :: rest)).1 h
        cases x with
        | nil => exact absurd rfl hx
        | cons d xs =>
          simp only [List.cons_append, List.cons.injEq] at hr
          have hdrop : rest.drop ((d :: xs).length - 1) = r := by
            simp only [List.length_cons, Nat.add_sub_cancel]
            rw [← hr.2]
            exact List.drop_left xs r
          simp only [replaceGo, h, if_true, hdrop, ih]
          simp [hr.1, hr.2]
      · simp [replaceGo, h, ih]

/-- Replacing a substring by itself never changes the buffer. -/
theorem pyReplace_self (x s : Buf) : pyReplace x x s = s := by
  cases hx : x with
  | nil => simp [pyReplace, interleave_nil]
  | cons d xs =>
    simp only [pyReplace, List.isEmpty_cons, Bool.false_eq_true, if_false]
    exact replaceGo_self (d :: xs) (by simp) s.length s

theorem occursIn_of_occursIn_append (x y s : Buf) (h : occursIn (x ++ y) s = true) :
    occursIn x s = true := by
  obtain ⟨a, b, hab⟩ := (occursIn_iff (x ++ y) s).1 h
  exact (occursIn_iff x s).2 ⟨a, y ++ b, by rw [← hab]; simp⟩

/-- Core of C9.  Under four side conditions on the pair `(o, n)` — `o` does
not occur in `n`, no non-empty suffix of `n` leads `o`, no non-empty proper
suffix of `o` leads `n`, and `o` is at most one longer than `n` — the
replacement scan's output never contains `o` again, and any proper suffix of
`o` leading the output already led the input. -/
theorem replaceGo_no_recreate (o n : Buf) (ho : o ≠ [])
    (hA : occursIn o n = false)
    (hB : ∀ t ∈ allSufs n, t = [] ∨ isPre t o = false)
    (hC : ∀ t ∈ allSufs o, t = [] ∨ t = o ∨ isPre t n = false)
    (hL : o.length ≤ n.length + 1) :
    ∀ (fuel : Nat) (s : Buf), s.length ≤ fuel →
      occursIn o (replaceGo o n fuel s) = false ∧
      (∀ t ∈ allSufs o, t ≠ [] → t ≠ o →
        isPre t (replaceGo o n fuel s) = true → isPre t s = true) := by
  intro fuel
  induction fuel with
  | zero =>
    intro s hs
    have hsnil : s = [] := List.eq_nil_of_length_eq_zero (Nat.le_zero.mp hs)
    subst hsnil
    refine ⟨?_, ?_⟩
    · cases o with
      | nil => exact absurd rfl ho
      | cons c os => simp [replaceGo, occursIn]
    · intro t _ htne _ hpre
      cases t with
      | nil => exact absurd rfl htne
      | cons d t' => simp [replaceGo, isPre] at hpre
  | succ m ih =>
    intro s hs
    cases s with
    | nil =>
      refine ⟨?_, ?_⟩
      · cases o with
        | nil => exact absurd rfl ho
        | cons c os => simp [replaceGo, occursIn]
      · intro t _ htne _ hpre
        cases t with
        | nil => exact absurd rfl htne
        | cons d t' => simp [replaceGo, isPre] at hpre
    | cons c rest =>
      have hrest : rest.length ≤ m := by
        simp only [List.length_cons] at hs; omega
      by_cases hm : isPre o (c :: rest) = true
      · -- matched here: output is n ++ scan of the tail past the match
        have hgo : replaceGo o n (m + 1) (c :: rest)
            = n ++ replaceGo o n m (rest.drop (o.length - 1)) := by
          simp [replaceGo, hm]
        have hdl : (rest.drop (o.length - 1)).length ≤ m := by
          simp only [List.length_drop]; omega
        obtain ⟨ihA, ihB⟩ := ih (rest.drop (o.length - 1)) hdl
        refine ⟨?_, ?_⟩
        · rw [hgo]
          cases hval : occursIn o (n ++ replaceGo o n m (rest.drop (o.length - 1))) with
          | false => rfl
          | true =>
            exfalso
            rcases occurs_split o n _ hval with h1 | h1 | ⟨x1, x2, hx, hx1, hx2, ⟨a, hsa⟩, _⟩
            · rw [hA] at h1; exact Bool.false_ne_true h1
            · rw [ihA] at h1; exact Bool.false_ne_true h1
            · have hx1o : isPre x1 o = true := (isPre_iff x1 o).2 ⟨x2, hx⟩
              have hx1mem : x1 ∈ allSufs n := (mem_allSufs_iff x1 n).2 ⟨a, hsa⟩
              rcases hB x1 hx1mem with h' | h'
              · exact hx1 h'
              · rw [h'] at hx1o; exact Bool.false_ne_true hx1o
        · rw [hgo]
          intro t htmem htne htno hpre
          exfalso
          have htlen : t.length ≤ n.length := by
            obtain ⟨a, ha⟩ := (mem_allSufs_iff t o).1 htmem
            have hl' := congrArg List.length ha
            simp only [List.length_append] at hl'
            have hane : a ≠ [] := by
              rintro rfl
              exact htno (by simpa using ha)
            have h1a : 1 ≤ a.length := by
              cases a with
              | nil => exact absurd rfl hane
              | cons e a' => simp
            omega
          have hpn : isPre t n = true := isPre_append_of_le t n _ hpre htlen
          rcases hC t htmem with h' | h' | h'
          · exact htne h'
          · exact htno h'
          · rw [h'] at hpn; exact Bool.false_ne_true hpn
      · -- no match at this character: output keeps `c`
        have hgo : replaceGo o n (m + 1) (c :: rest) = c :: replaceGo o n m rest := by
          simp [replaceGo, hm]
        obtain ⟨ihA, ihB⟩ := ih rest hrest
        refine ⟨?_, ?_⟩
        · rw [hgo]
          simp only [occursIn, Bool.or_eq_false_iff]
          refine ⟨?_, ihA⟩
          obtain ⟨d, o', rfl⟩ : ∃ d o', o = d :: o' := by
            cases o with
            | nil => exact absurd rfl ho
            | cons d o' => exact ⟨d, o', rfl⟩
          cases hval : isPre (d :: o') (c :: replaceGo (d :: o') n m rest) with
          | false => rfl
          | true =>
            exfalso
            simp only [isPre, Bool.and_eq_true, beq_iff_eq] at hval
            obtain ⟨hdc, hpre'⟩ := hval
            have ho'mem : o' ∈ allSufs (d :: o') := (mem_allSufs_iff o' (d :: o')).2 ⟨[d], rfl⟩
            cases o' with
            | nil =>
              apply hm
              simp [isPre, hdc]
            | cons e o'' =>
              have ho'ne : (e :: o'') ≠ (d :: e :: o'') := by
                intro h
                have := congrArg List.length h
                simp at this
              have hpr : isPre (e :: o'') rest = true :=
                ihB (e :: o'') ho'mem (by simp) ho'ne hpre'
              apply hm
              simp [isPre, hdc, hpr]
        · rw [hgo]
          intro t htmem htne htno hpre
          cases t with
          | nil => exact absurd rfl htne
          | cons d t' =>
            simp only [isPre, Bool.and_eq_true, beq_iff_eq] at hpre ⊢
            obtain ⟨hdc, hpre'⟩ := hpre
            refine ⟨hdc, ?_⟩
            cases t' with
            | nil => simp [isPre]
            | cons e t'' =>
              have ht'mem : (e :: t'') ∈ allSufs o := tail_mem_allSufs d (e :: t'') o htmem
              have ht'ne_o : (e :: t'') ≠ o := by
                intro h
                have h1 := length_le_of_mem_allSufs (d :: e :: t'') o htmem
                have h2 := congrArg List.length h
                simp only [List.length_cons] at h1 h2
                omega
              exact ihB (e :: t'') ht'mem (by simp) ht'ne_o hpre'

/-- `pyReplace` version of the no-recreation lemma. -/
theorem pyReplace_no_recreate (o n : Buf) (ho : o ≠ [])
    (hA : occursIn o n = false)
    (hB : ∀ t ∈ allSufs n, t = [] ∨ isPre t o = false)
    (hC : ∀ t ∈ allSufs o, t = [] ∨ t = o ∨ isPre t n = false)
    (hL : o.length ≤ n.length + 1) (s : Buf) :
    occursIn o (pyReplace o n s) = false := by
  have hne : o.isEmpty = false := by
    cases o with
    | nil => exact absurd rfl ho
    | cons c os => simp
  rw [pyReplace, hne]
  simp only [Bool.false_eq_true, if_false]
  exact (replaceGo_no_recreate o n ho hA hB hC hL s.length s (Nat.le_refl _)).1

theorem isPre_length (p s : Buf) (h : isPre p s = true) : p.length ≤ s.length := by
  obtain ⟨r, hr⟩ := (isPre_iff p s).1 h
  have := congrArg List.length hr
  simp only [List.length_append] at this
  omega

/-- A replacement whose new string is no longer than its old one never grows
the buffer. -/
theorem replaceGo_length_le (old new : Buf) (hlen : new.length ≤ old.length) :
    ∀ (fuel : Nat) (s : Buf), s.length ≤ fuel →
      (replaceGo old new fuel s).length ≤ s.length := by
  intro fuel
  induction fuel with
  | zero => intro s _; cases s <;> simp [replaceGo]
  | succ m ih =>
    intro s hs
    cases s with
    | nil => simp [replaceGo]
    | cons c rest =>
      have hrest : rest.length ≤ m := by simp only [List.length_cons] at hs; omega
      by_cases hm : isPre old (c :: rest) = true
      · have hgo : replaceGo old new (m + 1) (c :: rest)
            = new ++ replaceGo old new m (rest.drop (old.length - 1)) := by
          simp [replaceGo, hm]
        have hole : old.length ≤ rest.length + 1 := by
          have := isPre_length old (c :: rest) hm
          simpa using this
        have hdl : (rest.drop (old.length - 1)).length ≤ m := by
          simp only [List.length_drop]; omega
        have hrec := ih (rest.drop (old.length - 1)) hdl
        rw [hgo]
        simp only [List.length_append, List.length_cons]
        simp only [List.length_drop] at hrec
        omega
      · have hgo : replaceGo old new (m + 1) (c :: rest)
            = c :: replaceGo old new m rest := by
          simp [replaceGo, hm]
        have hrec := ih rest hrest
        rw [hgo]
        simp only [List.length_cons]
        omega

/-- A replacement whose new string is strictly shorter than its old one
strictly shrinks every buffer containing the old string. -/
theorem replaceGo_length_lt (old new : Buf) (ho : old ≠ [])
    (hlen : new.length < old.length) :
    ∀ (fuel : Nat) (s : Buf), s.length ≤ fuel → occursIn old s = true →
      (replaceGo old new fuel s).length < s.length := by
  intro fuel
  induction fuel with
  | zero =>
    intro s hs hocc
    have hsnil : s = [] := List.eq_nil_of_length_eq_zero (Nat.le_zero.mp hs)
    subst hsnil
    cases old with
    | nil => exact absurd rfl ho
    | cons c os => simp [occursIn] at hocc
  | succ m ih =>
    intro s hs hocc
    cases s with
    | nil =>
      cases old with
      | nil => exact absurd rfl ho
      | cons c os => simp [occursIn] at hocc
    | cons c rest =>
      have hrest : rest.length ≤ m := by simp only [List.length_cons] at hs; omega
      by_cases hm : isPre old (c :: rest) = true
      · have hgo : replaceGo old new (m + 1) (c :: rest)
            = new ++ replaceGo old new m (rest.drop (old.length - 1)) := by
          simp [replaceGo, hm]
        have hole : old.length ≤ rest.length + 1 := by
          have := isPre_length old (c :: rest) hm
          simpa using this
        have hone : 1 ≤ old.length := by
          cases old with
          | nil => exact absurd rfl ho
          | cons d os => simp
        have hdl : (rest.drop (old.length - 1)).length ≤ m := by
          simp only [List.length_drop]; omega
        have hrec := replaceGo_length_le old new (Nat.le_of_lt hlen) m
          (rest.drop (old.length - 1)) hdl
        rw [hgo]
        simp only [List.length_append, List.length_cons]
        simp only [List.length_drop] at hrec
        omega
      · have hgo : replaceGo old new (m + 1) (c :: rest)
            = c :: replaceGo old new m rest := by
          simp [replaceGo, hm]
        have hocc' : occursIn old rest = true := by
          simp only [occursIn, Bool.or_eq_true] at hocc
          rcases hocc with h | h
          · exact absurd h hm
          · exact h
        have hrec := ih rest hrest hocc'
        rw [hgo]
        simp only [List.length_cons]
        omega

/-- When the old string occurs and the new string is strictly shorter, the
replacement is not the identity (the buffer strictly shrinks). -/
theorem pyReplace_ne_of_occurs (old new s : Buf) (ho : old ≠ [])
    (hlen : new.length < old.length) (hocc : occursIn old s = true) :
    pyReplace old new s ≠ s := by
  intro heq
  have hne : old.isEmpty = false := by
    cases old with
    | nil => exact absurd rfl ho
    | cons c os => simp
  have hlt : (pyReplace old new s).length < s.length := by
    rw [pyReplace, hne]
    simp only [Bool.false_eq_true, if_false]
    exact replaceGo_length_lt old new ho hlen s.length s (Nat.le_refl _) hocc
  rw [heq] at hlt
  omega

/-! ## The scripts' data, transcribed from the source

`fqw_*` are the nine replacement pairs of `fix_quiz_width_final.py` in source
order; `old_progress_calc`/`new_progress_calc` are its two string variables
(defined at lines 16-17 and never passed to a replace call); `rqs_*` are the
replacement pairs of `reduce_quiz_sizes.py` (six in the first pass, two in the
second). -/

/-- The one file path both scripts read and overwrite. -/
def quizTabPath : String := "components/project-tabs/quiz-tab.tsx"

def fqw_old1 : String := "  return (\n    <div className=\"space-y-6 w-full max-w-full overflow-x-hidden box-border\">"

def fqw_new1 : String := "  return (\n    <div className=\"space-y-6 w-full max-w-full overflow-x-hidden box-border\" style=\x7b\x7b width: \"100%\", maxWidth: \"100%\" \x7d\x7d>"

def old_progress_calc : String := "width: `$\x7bMath.min(((currentQuestionIndex + 1) / totalQuestions) * 100, 100)\x7d%`"

def new_progress_calc : String := "width: `$\x7bMath.min(((currentQuestionIndex + 1) / totalQuestions) * 100, 100)\x7d%`"

def fqw_old2 : String := "        <div className=\"w-full bg-gray-200 rounded-full h-2 sm:h-3 overflow-hidden\">"

def fqw_new2 : String := "        <div className=\"w-full bg-gray-200 rounded-full h-2 sm:h-3 overflow-hidden\" style=\x7b\x7b width: \"100%\", maxWidth: \"100%\" \x7d\x7d>"

def fqw_old3 : String := "            className=\"bg-emerald-600 h-2 sm:h-3 rounded-full transition-all duration-300 max-w-full\""

def fqw_new3 : String := "            className=\"bg-emerald-600 h-2 sm:h-3 rounded-full transition-all duration-300\" style=\x7b\x7b maxWidth: \"100%\" \x7d\x7d"

def fqw_old4 : String := "      <div className=\"glass-card rounded-2xl p-4 sm:p-6 w-full max-w-full overflow-hidden\">"

def fqw_new4 : String := "      <div className=\"glass-card rounded-2xl p-4 sm:p-6 w-full max-w-full overflow-hidden box-border\" style=\x7b\x7b width: \"100%\", maxWidth: \"100%\", boxSizing: \"border-box\" \x7d\x7d>"

def fqw_old5 : String := "      <div className=\"glass-card rounded-2xl p-4 sm:p-6 md:p-8 w-full max-w-full overflow-hidden\">"

def fqw_new5 : String := "      <div className=\"glass-card rounded-2xl p-4 sm:p-6 md:p-8 w-full max-w-full overflow-hidden box-border\" style=\x7b\x7b width: \"100%\", maxWidth: \"100%\", boxSizing: \"border-box\" \x7d\x7d>"

def fqw_old6 : String := "      <div className=\"space-y-4 w-full max-w-full overflow-x-hidden\">"

def fqw_new6 : String := "      <div className=\"space-y-4 w-full max-w-full overflow-x-hidden box-border\" style=\x7b\x7b width: \"100%\", maxWidth: \"100%\" \x7d\x7d>"

def fqw_old7 : String := "        <div className=\"flex items-center gap-2 w-full min-w-0\">"

def fqw_new7 : String := "        <div className=\"flex items-center gap-2 w-full min-w-0 box-border\" style=\x7b\x7b width: \"100%\", maxWidth: \"100%\" \x7d\x7d>"

def fqw_old8 : String := "            className=\"flex-1 min-w-0 overflow-x-auto px-2 scrollbar-hide\""

def fqw_new8 : String := "            className=\"flex-1 min-w-0 overflow-x-auto px-2 scrollbar-hide box-border\" style=\x7b\x7b minWidth: 0, maxWidth: \"100%\" \x7d\x7d>"

def fqw_old9 : String := "        <div className=\"flex items-center justify-between gap-4 w-full min-w-0\">"

def fqw_new9 : String := "        <div className=\"flex items-center justify-between gap-4 w-full min-w-0 box-border\" style=\x7b\x7b width: \"100%\", maxWidth: \"100%\" \x7d\x7d>"

/-- The nine `(old, new)` pairs `fix_quiz_width_final.py` passes to
`content.replace`, in source order. -/
def fqwPairs : List (Buf × Buf) :=
  [ (fqw_old1.toList, fqw_new1.toList),
    (fqw_old2.toList, fqw_new2.toList),
    (fqw_old3.toList, fqw_new3.toList),
    (fqw_old4.toList, fqw_new4.toList),
    (fqw_old5.toList, fqw_new5.toList),
    (fqw_old6.toList, fqw_new6.toList),
    (fqw_old7.toList, fqw_new7.toList),
    (fqw_old8.toList, fqw_new8.toList),
    (fqw_old9.toList, fqw_new9.toList) ]

/-- The buffer transformation of `fix_quiz_width_final.py`: its nine
`content = content.replace(old, new)` statements, in source order. -/
def fix_quiz_width_final (s : Buf) : Buf :=
  let content := pyReplace fqw_old1.toList fqw_new1.toList s
  let content := pyReplace fqw_old2.toList fqw_new2.toList content
  let content := pyReplace fqw_old3.toList fqw_new3.toList content
  let content := pyReplace fqw_old4.toList fqw_new4.toList content
  let content := pyReplace fqw_old5.toList fqw_new5.toList content
  let content := pyReplace fqw_old6.toList fqw_new6.toList content
  let content := pyReplace fqw_old7.toList fqw_new7.toList content
  let content := pyReplace fqw_old8.toList fqw_new8.toList content
  let content := pyReplace fqw_old9.toList fqw_new9.toList content
  content

/-- The six `(old, new)` pairs of the first pass of `reduce_quiz_sizes.py`
(source lines 6, 7, 10, 11, 14, 17), in source order: note the pair at
line 11 repeats the pair at line 7. -/
def rqsPass1Pairs : List (Buf × Buf) :=
  [ ("text-sm sm:text-base font-medium".toList, "text-xs font-medium".toList),
    ("text-xs sm:text-sm".toList, "text-xs".toList),
    ("w-8 h-8 sm:w-10 sm:h-10".toList, "w-6 h-6".toList),
    ("text-xs sm:text-sm".toList, "text-xs".toList),
    ("h-4 w-4".toList, "h-3 w-3".toList),
    ("h-2 sm:h-3".toList, "h-1.5".toList) ]

/-- The two `(old, new)` pairs of the second pass of `reduce_quiz_sizes.py`
(source lines 26-27), in source order. -/
def rqsPass2Pairs : List (Buf × Buf) :=
  [ ("p-4 sm:p-6".toList, "p-2 sm:p-3".toList),
    ("p-4 sm:p-6 md:p-8".toList, "p-2 sm:p-3".toList) ]

/-- All replacement pairs of `reduce_quiz_sizes.py`, in the listed order. -/
def rqsPairs : List (Buf × Buf) := rqsPass1Pairs ++ rqsPass2Pairs

/-- First pass of `reduce_quiz_sizes.py` (lines 6-17). -/
def reduce_quiz_sizes_pass1 (s : Buf) : Buf :=
  let content := pyReplace "text-sm sm:text-base font-medium".toList "text-xs font-medium".toList s
  let content := pyReplace "text-xs sm:text-sm".toList "text-xs".toList content
  let content := pyReplace "w-8 h-8 sm:w-10 sm:h-10".toList "w-6 h-6".toList content
  let content := pyReplace "text-xs sm:text-sm".toList "text-xs".toList content
  let content := pyReplace "h-4 w-4".toList "h-3 w-3".toList content
  let content := pyReplace "h-2 sm:h-3".toList "h-1.5".toList content
  content

/-- Second pass of `reduce_quiz_sizes.py` (lines 26-27). -/
def reduce_quiz_sizes_pass2 (s : Buf) : Buf :=
  let content := pyReplace "p-4 sm:p-6".toList "p-2 sm:p-3".toList s
  let content := pyReplace "p-4 sm:p-6 md:p-8".toList "p-2 sm:p-3".toList content
  content

/-- The combined buffer transformation of a full run of
`reduce_quiz_sizes.py` (the second pass reads back exactly what the first
pass wrote, see `runReduceQuizSizes`). -/
def reduce_quiz_sizes (s : Buf) : Buf :=
  reduce_quiz_sizes_pass2 (reduce_quiz_sizes_pass1 s)

/-- The ordered-pair-list transformation the spec describes: each pair applied
by whole-buffer literal substitution, each application operating on the result
of the previous one. -/
def applyPairs (ps : List (Buf × Buf)) (s : Buf) : Buf :=
  ps.foldl (fun acc p => pyReplace p.1 p.2 acc) s

/-! ## File-system model

A file system maps paths to optional contents.  Each script run is explicit
state passing: read the one path; on `none` (open/read failure) stop with the
state untouched and `false`; otherwise transform and write back.
`reduce_quiz_sizes.py` runs two read-transform-write rounds. -/

/-- File-system state: path to contents, `none` when unreadable/absent. -/
def Fsys := String → Option Buf

/-- Overwrite one path's contents. -/
def fsWrite (fs : Fsys) (p : String) (c : Buf) : Fsys :=
  fun q => if q = p then some c else fs q

/-- A run of `fix_quiz_width_final.py`: final file system and whether the run
completed (a failed read halts the script with the state untouched). -/
def runFixQuizWidthFinal (fs : Fsys) : Fsys × Bool :=
  match fs quizTabPath with
  | none => (fs, false)
  | some content => (fsWrite fs quizTabPath (fix_quiz_width_final content), true)

/-- A run of `reduce_quiz_sizes.py`: read, transform, write; then read back,
transform, write again. -/
def runReduceQuizSizes (fs : Fsys) : Fsys × Bool :=
  match fs quizTabPath with
  | none => (fs, false)
  | some content =>
    let fs1 := fsWrite fs quizTabPath (reduce_quiz_sizes_pass1 content)
    match fs1 quizTabPath with
    | none => (fs1, false)
    | some content2 => (fsWrite fs1 quizTabPath (reduce_quiz_sizes_pass2 content2), true)

/-! ## Concrete file systems used as witnesses -/

/-- A file system where every path reads as the buffer `h-4 w-4`. -/
def fsQuiz : Fsys := fun _ => some "h-4 w-4".toList

/-- Like `fsQuiz` but with one unrelated unreadable path. -/
def fsQuiz' : Fsys := fun q => if q = "README.md" then none else some "h-4 w-4".toList

/-- A file system where every read fails. -/
def fsNone : Fsys := fun _ => none

/-- The sequential statement chain of `fix_quiz_width_final.py` is the fold of
its pair list. -/
theorem fqw_eq_applyPairs (s : Buf) : fix_quiz_width_final s = applyPairs fqwPairs s := by
  simp only [fix_quiz_width_final, applyPairs, fqwPairs, List.foldl_cons, List.foldl_nil]

/-- The two statement chains of `reduce_quiz_sizes.py` compose to the fold of
its full pair list. -/
theorem rqs_eq_applyPairs (s : Buf) : reduce_quiz_sizes s = applyPairs rqsPairs s := by
  simp only [reduce_quiz_sizes, reduce_quiz_sizes_pass1, reduce_quiz_sizes_pass2,
    applyPairs, rqsPairs, rqsPass1Pairs, rqsPass2Pairs, List.cons_append,
    List.nil_append, List.foldl_cons, List.foldl_nil]

/-- What a run of `fix_quiz_width_final.py` leaves at the target path. -/
theorem runFix_at_path (fs : Fsys) :
    (runFixQuizWidthFinal fs).1 quizTabPath
      = Option.map fix_quiz_width_final (fs quizTabPath) := by
  unfold runFixQuizWidthFinal
  cases hval : fs quizTabPath with
  | none => exact hval
  | some content => simp [fsWrite]

/-- What a run of `reduce_quiz_sizes.py` leaves at the target path. -/
theorem runReduce_at_path (fs : Fsys) :
    (runReduceQuizSizes fs).1 quizTabPath
      = Option.map reduce_quiz_sizes (fs quizTabPath) := by
  unfold runReduceQuizSizes
  cases hval : fs quizTabPath with
  | none => exact hval
  | some content => simp [fsWrite, reduce_quiz_sizes]

/-- A run of `reduce_quiz_sizes.py` on a readable target completes. -/
theorem runReduce_snd (fs : Fsys) (content : Buf) (h : fs quizTabPath = some content) :
    (runReduceQuizSizes fs).2 = true := by
  unfold runReduceQuizSizes
  rw [h]
  simp [fsWrite]

/-! ## The claims -/

/-- C1: for every input buffer, each script's transformation equals the buffer
with the script's ordered list of `(old, new)` pairs applied by whole-buffer
literal substitution in the listed order, each application operating on the
result of the previous one. -/
theorem c1_transforms_apply_listed_pairs_in_order (s : Buf) :
    fix_quiz_width_final s = applyPairs fqwPairs s ∧
      reduce_quiz_sizes s = applyPairs rqsPairs s :=
  ⟨fqw_eq_applyPairs s, rqs_eq_applyPairs s⟩

/-- C2: the spec's minimal test: replacing `h-4 w-4` by `h-3 w-3` in
`<div className="h-4 w-4">` gives exactly `<div className="h-3 w-3">`. -/
theorem c2_minimal_test :
    pyReplace "h-4 w-4".toList "h-3 w-3".toList "<div className=\"h-4 w-4\">".toList
      = "<div className=\"h-3 w-3\">".toList := by
  decide

/-- C3: for every buffer and every `(old, new)` pair, when `old` does not
occur in the buffer the replacement returns the buffer unchanged (and, being
a total function, raises nothing): the absent-substring case is a no-op. -/
theorem c3_absent_old_is_noop (old new s : Buf) (h : occursIn old s = false) :
    pyReplace old new s = s :=
  pyReplace_of_not_occurs old new s h

/-- Witness for C3 at a concrete buffer not containing the old string. -/
theorem c3_absent_old_is_noop_witness :
    occursIn "h-9".toList "<div className=\"h-4 w-4\">".toList = false ∧
      pyReplace "h-9".toList "h-3".toList "<div className=\"h-4 w-4\">".toList
        = "<div className=\"h-4 w-4\">".toList :=
  ⟨by decide, c3_absent_old_is_noop "h-9".toList "h-3".toList
    "<div className=\"h-4 w-4\">".toList (by decide)⟩

/-- C4 counterexample: `fix_quiz_width_final.py` never performs the
progress-calculation replacement: the pair `(old_progress_calc,
new_progress_calc)` is not among the nine pairs the script passes to
replace, and none of the pairs it does perform has identical old and new
strings. -/
theorem c4_counterexample :
    fqwPairs.contains (old_progress_calc.toList, new_progress_calc.toList) = false ∧
      fqwPairs.all (fun p => !(p.1 == p.2)) = true :=
  ⟨by decide, by decide⟩

/-- C4 (amended): the script defines `old_progress_calc` and
`new_progress_calc` as identical strings but never performs that replacement;
performing a replacement whose old and new strings are identical would be the
identity on every buffer. -/
theorem c4_amended_identical_pair_defined_never_performed :
    old_progress_calc = new_progress_calc ∧
      fqwPairs.contains (old_progress_calc.toList, new_progress_calc.toList) = false ∧
      ∀ s : Buf, pyReplace old_progress_calc.toList new_progress_calc.toList s = s := by
  refine ⟨rfl, by decide, ?_⟩
  intro s
  exact pyReplace_self old_progress_calc.toList s

/-- C5 counterexample: at the buffer `h-4 w-4` the script's two-pass run
(six replacements, then two) produces `h-3 w-3`, while a single pass applying
the claimed six pairs (the first four and the last two) leaves the buffer
unchanged, so the two results differ. -/
theorem c5_counterexample :
    reduce_quiz_sizes "h-4 w-4".toList = "h-3 w-3".toList ∧
      applyPairs (rqsPass1Pairs.take 4 ++ rqsPass2Pairs) "h-4 w-4".toList
        = "h-4 w-4".toList ∧
      (reduce_quiz_sizes "h-4 w-4".toList
          == applyPairs (rqsPass1Pairs.take 4 ++ rqsPass2Pairs) "h-4 w-4".toList) = false :=
  ⟨by decide, by decide, by decide⟩

/-- C5 (amended): the two-pass structure of `reduce_quiz_sizes.py` — apply the
first six replacements, write, read back, apply the last two, write again —
produces the same final content as a single pass applying all eight listed
pairs in order, the write-then-read round trip returning the written text. -/
theorem c5_amended_two_pass_equals_single_pass (fs : Fsys) (content : Buf)
    (h : fs quizTabPath = some content) :
    (runReduceQuizSizes fs).1 quizTabPath = some (applyPairs rqsPairs content) ∧
      (runReduceQuizSizes fs).2 = true := by
  refine ⟨?_, runReduce_snd fs content h⟩
  rw [runReduce_at_path, h, Option.map_some']
  rw [rqs_eq_applyPairs]

/-- Witness for C5 (amended) on a concrete file system. -/
theorem c5_amended_two_pass_equals_single_pass_witness :
    (runReduceQuizSizes fsQuiz).1 quizTabPath
        = some (applyPairs rqsPairs "h-4 w-4".toList) ∧
      (runReduceQuizSizes fsQuiz).2 = true :=
  c5_amended_two_pass_equals_single_pass fsQuiz "h-4 w-4".toList rfl

/-- C6: all persistent effect of either script is confined to the single fixed
path `components/project-tabs/quiz-tab.tsx`: a run leaves every other path's
contents untouched (and the runs consume no input besides the file system). -/
theorem c6_frame_single_path (fs : Fsys) (q : String) (h : q ≠ quizTabPath) :
    (runFixQuizWidthFinal fs).1 q = fs q ∧ (runReduceQuizSizes fs).1 q = fs q := by
  constructor
  · unfold runFixQuizWidthFinal
    cases fs quizTabPath with
    | none => rfl
    | some content => simp [fsWrite, h]
  · unfold runReduceQuizSizes
    cases fs quizTabPath with
    | none => rfl
    | some content => simp [fsWrite, h]

/-- Witness for C6 at a concrete unrelated path. -/
theorem c6_frame_single_path_witness :
    (runFixQuizWidthFinal fsQuiz).1 "README.md" = fsQuiz "README.md" ∧
      (runReduceQuizSizes fsQuiz).1 "README.md" = fsQuiz "README.md" :=
  c6_frame_single_path fsQuiz "README.md" (by decide)

/-- C7: when opening/reading the target fails, each script halts unfinished
and the file system is exactly what it was: no write and no retry happen. -/
theorem c7_read_failure_halts_without_write (fs : Fsys) (h : fs quizTabPath = none) :
    runFixQuizWidthFinal fs = (fs, false) ∧ runReduceQuizSizes fs = (fs, false) := by
  constructor
  · simp [runFixQuizWidthFinal, h]
  · simp [runReduceQuizSizes, h]

/-- Witness for C7 on the all-unreadable file system. -/
theorem c7_read_failure_halts_without_write_witness :
    runFixQuizWidthFinal fsNone = (fsNone, false) ∧
      runReduceQuizSizes fsNone = (fsNone, false) :=
  c7_read_failure_halts_without_write fsNone rfl

/-- C8 counterexample: on the buffer `text-xs sm:text-sm sm:text-sm` one
application of the line-7 replacement yields `text-xs sm:text-sm`, in which
the old string still occurs, and the second application then changes the
buffer again (to `text-xs`), so it is not the identity. -/
theorem c8_counterexample :
    occursIn "text-xs sm:text-sm".toList
        (pyReplace "text-xs sm:text-sm".toList "text-xs".toList
          "text-xs sm:text-sm sm:text-sm".toList) = true ∧
      pyReplace "text-xs sm:text-sm".toList "text-xs".toList
          (pyReplace "text-xs sm:text-sm".toList "text-xs".toList
            "text-xs sm:text-sm sm:text-sm".toList) = "text-xs".toList ∧
      (pyReplace "text-xs sm:text-sm".toList "text-xs".toList
            (pyReplace "text-xs sm:text-sm".toList "text-xs".toList
              "text-xs sm:text-sm sm:text-sm".toList)
          == pyReplace "text-xs sm:text-sm".toList "text-xs".toList
            "text-xs sm:text-sm sm:text-sm".toList) = false :=
  ⟨by decide, by decide, by decide⟩

/-- C8 (amended): the pair `('text-xs sm:text-sm', 'text-xs')` is listed at
positions 2 and 4 of the first pass and its new string does not contain its
old string; yet one application can recreate the old string across a
replacement boundary, so the second application is the identity exactly on
those buffers whose once-replaced form no longer contains the old string:
when it no longer occurs the application is a no-op, and when it still occurs
the strictly shorter new string makes the application shrink the buffer. -/
theorem c8_amended_second_application_identity_iff_gone (s : Buf) :
    (pyReplace "text-xs sm:text-sm".toList "text-xs".toList
          (pyReplace "text-xs sm:text-sm".toList "text-xs".toList s)
        = pyReplace "text-xs sm:text-sm".toList "text-xs".toList s
      ↔ occursIn "text-xs sm:text-sm".toList
          (pyReplace "text-xs sm:text-sm".toList "text-xs".toList s) = false) ∧
      rqsPass1Pairs[1]? = some ("text-xs sm:text-sm".toList, "text-xs".toList) ∧
      rqsPass1Pairs[3]? = some ("text-xs sm:text-sm".toList, "text-xs".toList) ∧
      occursIn "text-xs sm:text-sm".toList "text-xs".toList = false := by
  refine ⟨⟨?_, ?_⟩, by decide, by decide, by decide⟩
  · intro heq
    cases hval : occursIn "text-xs sm:text-sm".toList
        (pyReplace "text-xs sm:text-sm".toList "text-xs".toList s) with
    | false => rfl
    | true =>
      exact absurd heq
        (pyReplace_ne_of_occurs "text-xs sm:text-sm".toList "text-xs".toList
          (pyReplace "text-xs sm:text-sm".toList "text-xs".toList s)
          (by decide) (by decide) hval)
  · intro h
    exact pyReplace_of_not_occurs _ _ _ h

/-- C9: for every buffer, after `('p-4 sm:p-6', 'p-2 sm:p-3')` has been
applied no occurrence of `p-4 sm:p-6 md:p-8` remains (the shorter old string
is its leading segment and cannot be recreated by this pair), so the
subsequent replacement `('p-4 sm:p-6 md:p-8', 'p-2 sm:p-3')` is the identity
on the once-replaced buffer. -/
theorem c9_second_padding_replacement_identity (s : Buf) :
    occursIn "p-4 sm:p-6 md:p-8".toList
        (pyReplace "p-4 sm:p-6".toList "p-2 sm:p-3".toList s) = false ∧
      pyReplace "p-4 sm:p-6 md:p-8".toList "p-2 sm:p-3".toList
          (pyReplace "p-4 sm:p-6".toList "p-2 sm:p-3".toList s)
        = pyReplace "p-4 sm:p-6".toList "p-2 sm:p-3".toList s := by
  have h1 : occursIn "p-4 sm:p-6".toList
      (pyReplace "p-4 sm:p-6".toList "p-2 sm:p-3".toList s) = false :=
    pyReplace_no_recreate "p-4 sm:p-6".toList "p-2 sm:p-3".toList
      (by decide) (by decide) (by decide) (by decide) (by decide) s
  have h2 : occursIn "p-4 sm:p-6 md:p-8".toList
      (pyReplace "p-4 sm:p-6".toList "p-2 sm:p-3".toList s) = false := by
    cases hval : occursIn "p-4 sm:p-6 md:p-8".toList
        (pyReplace "p-4 sm:p-6".toList "p-2 sm:p-3".toList s) with
    | false => rfl
    | true =>
      exfalso
      have hsplit : "p-4 sm:p-6 md:p-8".toList
          = "p-4 sm:p-6".toList ++ " md:p-8".toList := by decide
      rw [hsplit] at hval
      have hshort := occursIn_of_occursIn_append "p-4 sm:p-6".toList " md:p-8".toList
        (pyReplace "p-4 sm:p-6".toList "p-2 sm:p-3".toList s) hval
      rw [h1] at hshort
      exact Bool.false_ne_true hshort
  exact ⟨h2, pyReplace_of_not_occurs _ _ _ h2⟩

/-- C10: each script's written content is a deterministic pure function of the
content it read: two runs on file systems that agree at the target path leave
equal contents at the target path. -/
theorem c10_written_content_function_of_read_content (fs1 fs2 : Fsys)
    (h : fs1 quizTabPath = fs2 quizTabPath) :
    (runFixQuizWidthFinal fs1).1 quizTabPath = (runFixQuizWidthFinal fs2).1 quizTabPath ∧
      (runReduceQuizSizes fs1).1 quizTabPath = (runReduceQuizSizes fs2).1 quizTabPath := by
  constructor
  · rw [runFix_at_path, runFix_at_path, h]
  · rw [runReduce_at_path, runReduce_at_path, h]

/-- Witness for C10 on two distinct file systems agreeing at the target. -/
theorem c10_written_content_function_of_read_content_witness :
    (runFixQuizWidthFinal fsQuiz).1 quizTabPath
        = (runFixQuizWidthFinal fsQuiz').1 quizTabPath ∧
      (runReduceQuizSizes fsQuiz).1 quizTabPath
        = (runReduceQuizSizes fsQuiz').1 quizTabPath :=
  c10_written_content_function_of_read_content fsQuiz fsQuiz' (by decide)

end AiPodcast
